import Mathlib

/-!
A shallow embedding of the jconf configuration-file synchronizer
(src/main.rs and src/config_file.rs) and proofs about it.

Modelling conventions:
* Rust strings are `List Char` (`Str`); filesystem paths handled as
  component lists (`Path`, mirroring `PathBuf::iter`).
* The filesystem is an explicit state (`FS`): a finite map from paths to an
  entry (kind, modification time, content tag) plus a monotone clock.
  `std::fs::copy` copies contents and permissions but not timestamps, so the
  model gives a copied destination the current clock value as its
  modification time and advances the clock.
* Fallible Rust code returning `Result` becomes `Outcome`/`Except`; a Rust
  `expect`/unwrap abort is the distinguished `Outcome.panicked` value,
  kept separate from ordinary error propagation.
* Glob pattern compilation and matching (the external `glob` crate) is a
  parameter: `compile : Str → Option (Path → Bool)`; `none` models a
  malformed pattern.  The walk produced by `glob()` is modelled as the
  filesystem entries strictly under the base directory that match the
  compiled pattern.
* Per-entry read errors of the glob iterator, dot-dot path components and
  non-Unicode file names are not modelled.
-/

namespace Jconf

/-- Rust string contents. -/
abbrev Str := List Char

/-- A filesystem path as its list of components (`PathBuf::iter`). -/
abbrev Path := List String

/-- The error kinds named by the specification (§7). -/
inductive Err where
  | envVarMissing
  | invalidDirSpec
  | invalidFileName
  | missingPathField
  | unknownConfigName (name : String)
  | globPattern
  | ioErr
deriving DecidableEq

/-- Result of running a piece of the program: success, an ordinary error
propagated via `Result`/`?`, or a process abort via `expect`. -/
inductive Outcome (α : Type) where
  | ok (a : α)
  | err (e : Err)
  | panicked
deriving DecidableEq

/-- Kind of a filesystem entry. -/
inductive FKind where
  | file
  | dir
  | link
deriving DecidableEq

/-- Metadata for one filesystem entry: its kind, modification time, and a
tag standing for its byte content. -/
structure Entry where
  kind : FKind
  mtime : Nat
  data : Nat
deriving DecidableEq

/-- The filesystem state: entries plus a clock used as the modification
time of newly written files. -/
structure FS where
  entries : List (Path × Entry)
  clock : Nat
deriving DecidableEq

def FS.lookup (fs : FS) (p : Path) : Option Entry :=
  (fs.entries.find? (fun e => e.1 == p)).map (fun e => e.2)

def FS.isFile (fs : FS) (p : Path) : Bool :=
  match fs.lookup p with
  | some e => e.kind == FKind.file
  | none => false

def FS.isDir (fs : FS) (p : Path) : Bool :=
  match fs.lookup p with
  | some e => e.kind == FKind.dir
  | none => false

def FS.isSymlink (fs : FS) (p : Path) : Bool :=
  match fs.lookup p with
  | some e => e.kind == FKind.link
  | none => false

/-- `Path::exists`. -/
def FS.existsP (fs : FS) (p : Path) : Bool :=
  (fs.lookup p).isSome

/-- `fs::metadata(p)?.modified()?`, when it succeeds. -/
def FS.mtime? (fs : FS) (p : Path) : Option Nat :=
  (fs.lookup p).map (fun e => e.mtime)

/-- Modification time with a default, used only to phrase theorems. -/
def FS.mtimeD (fs : FS) (p : Path) : Nat :=
  ((fs.mtime? p).getD 0)

/-- `fs::copy(src, dst)`: writes the source content at the destination as a
regular file whose modification time is the time of the copy (the clock),
then advances the clock. -/
def FS.copyFile (fs : FS) (src dst : Path) : FS :=
  let d := match fs.lookup src with
    | some e => e.data
    | none => 0
  ⟨(dst, ⟨FKind.file, fs.clock, d⟩) :: fs.entries.filter (fun e => !(e.1 == dst)),
   fs.clock + 1⟩

/-- All prefixes of a path, shortest first. -/
def pathPrefixes (p : Path) : List Path :=
  (List.range (p.length + 1)).map (fun n => p.take n)

/-- `fs::create_dir_all(p)`: creates `p` and every missing ancestor as a
directory. -/
def FS.mkdirAll (fs : FS) (p : Path) : FS :=
  ⟨fs.entries ++
     ((pathPrefixes p).filter (fun q => !(fs.existsP q))).map
       (fun q => (q, ⟨FKind.dir, fs.clock, 0⟩)),
   fs.clock⟩

/-- `trim_base_path` from main.rs: drop as many leading components as the
base has, one fewer when the base is itself a file. -/
def trim_base_path (fs : FS) (full_path base_path : Path) : Path :=
  let base_len := base_path.length - (if fs.isFile base_path then 1 else 0)
  full_path.drop base_len

/-- `sync_file` from main.rs: decide whether the file needs a copy and
perform it, returning whether it was updated. -/
def sync_file (fs : FS) (from_base to_base file_path : Path) (force : Bool) :
    Outcome (FS × Bool) :=
  let from_path := from_base ++ file_path
  let to_path := to_base ++ file_path
  if fs.isDir from_path || fs.isSymlink from_path then
    Outcome.ok (fs, false)
  else
    let to_path_exists := fs.existsP to_path
    let should_sync? : Outcome Bool :=
      if force || !to_path_exists then Outcome.ok true
      else
        match fs.mtime? from_path, fs.mtime? to_path with
        | some fm, some tm => Outcome.ok (decide (fm > tm))
        | _, _ => Outcome.err Err.ioErr
    match should_sync? with
    | Outcome.err e => Outcome.err e
    | Outcome.panicked => Outcome.panicked
    | Outcome.ok should_sync =>
      if should_sync then
        let fs1 := if !to_path_exists then fs.mkdirAll to_path.dropLast else fs
        if fs1.isFile from_path && !(fs1.isDir to_path) then
          Outcome.ok (fs1.copyFile from_path to_path, true)
        else
          Outcome.err Err.ioErr
      else
        Outcome.ok (fs, false)

/-- Render a component path back to the string `Path::to_string_lossy`
produces, with `/` separators. -/
def renderPath (p : Path) : Str :=
  (String.intercalate "/" p).data

/-- The string `format!("{}/{}", base.trim_end_matches('/'), g.trim_start_matches('/'))`
built by `sync` for the include and exclude patterns. -/
def globJoin (base : Path) (g : Str) : Str :=
  ((renderPath base).reverse.dropWhile (fun c => c = '/')).reverse ++
    '/' :: g.dropWhile (fun c => c = '/')

/-- The lazy walk of `glob()`: every filesystem entry strictly below the
base directory whose full path matches the compiled pattern. -/
def walkGlob (fs : FS) (base : Path) (pat : Path → Bool) : List Path :=
  (fs.entries.map (fun e => e.1)).filter
    (fun p => base.isPrefixOf p && !(p == base) && pat p)

/-- The per-entry loop body of `sync`: skip excluded entries, sync the
rest, count the updates. -/
def syncLoop (fs : FS) (from_base to_base : Path) (force : Bool)
    (exPat : Option (Path → Bool)) : List Path → Outcome (FS × Nat)
  | [] => Outcome.ok (fs, 0)
  | full :: rest =>
    if (exPat.map (fun f => f full)).getD false then
      syncLoop fs from_base to_base force exPat rest
    else
      match sync_file fs from_base to_base (trim_base_path fs full from_base) force with
      | Outcome.ok (fs1, updated) =>
        match syncLoop fs1 from_base to_base force exPat rest with
        | Outcome.ok (fs2, c) => Outcome.ok (fs2, c + (if updated then 1 else 0))
        | r => r
      | Outcome.err e => Outcome.err e
      | Outcome.panicked => Outcome.panicked

/-- `sync` from main.rs.  The exclude pattern is compiled first with
`Pattern::new(..)?` (ordinary error propagation); the include pattern is
then handed to `glob(..).expect(..)`, whose failure is a panic. -/
def sync (compile : Str → Option (Path → Bool)) (fs : FS)
    (from_base to_base : Path) (include_glob : Str) (exclude_glob : Option Str)
    (force : Bool) : Outcome (FS × Nat) :=
  let exPat? : Outcome (Option (Path → Bool)) :=
    match exclude_glob with
    | some g =>
      match compile (globJoin from_base g) with
      | some p => Outcome.ok (some p)
      | none => Outcome.err Err.globPattern
    | none => Outcome.ok none
  match exPat? with
  | Outcome.err e => Outcome.err e
  | Outcome.panicked => Outcome.panicked
  | Outcome.ok exPat =>
    match compile (globJoin from_base include_glob) with
    | none => Outcome.panicked
    | some incPat =>
      syncLoop fs from_base to_base force exPat (walkGlob fs from_base incPat)

/-- The three subcommands. -/
inductive Command where
  | sync
  | pull
  | push
deriving DecidableEq

/-- The per-configuration dispatch of `run` (main.rs, the `match cmd`
block): pull and push are one directional sync honouring `force`; sync is
origin→linked then linked→origin, both hard-coded non-forced.  Returns
(state, pulled count, pushed count). -/
def runCmd (cmd : Command) (compile : Str → Option (Path → Bool)) (fs : FS)
    (origin_base linked_base : Path) (include_glob : Str)
    (exclude_glob : Option Str) (force : Bool) : Outcome (FS × Nat × Nat) :=
  match cmd with
  | Command.pull =>
    match Jconf.sync compile fs origin_base linked_base include_glob exclude_glob force with
    | Outcome.ok (fs1, c) => Outcome.ok (fs1, c, 0)
    | Outcome.err e => Outcome.err e
    | Outcome.panicked => Outcome.panicked
  | Command.push =>
    match Jconf.sync compile fs linked_base origin_base include_glob exclude_glob force with
    | Outcome.ok (fs1, c) => Outcome.ok (fs1, 0, c)
    | Outcome.err e => Outcome.err e
    | Outcome.panicked => Outcome.panicked
  | Command.sync =>
    match Jconf.sync compile fs origin_base linked_base include_glob exclude_glob false with
    | Outcome.ok (fs1, pulled) =>
      match Jconf.sync compile fs1 linked_base origin_base include_glob exclude_glob false with
      | Outcome.ok (fs2, pushed) => Outcome.ok (fs2, pulled, pushed)
      | Outcome.err e => Outcome.err e
      | Outcome.panicked => Outcome.panicked
    | Outcome.err e => Outcome.err e
    | Outcome.panicked => Outcome.panicked

/-- `str::split_once`: split at the first occurrence of `c`. -/
def splitOnce (c : Char) : Str → Option (Str × Str)
  | [] => none
  | a :: rest =>
    if a = c then some ([], rest)
    else (splitOnce c rest).map (fun q => (a :: q.1, q.2))

/-- The first binding of `escape_var` in config_file.rs: expand a leading
`$VAR` (stripping every leading `$` before the lookup); a missing variable
is an ordinary error. -/
def envStep (env : Str → Option Str) (path : Str) : Outcome Str :=
  if path.head? = some '$' then
    let p := path.dropWhile (fun c => c = '$')
    match splitOnce '/' p with
    | some (env_key, rest) =>
      match env env_key with
      | some v => Outcome.ok (v ++ '/' :: rest)
      | none => Outcome.err Err.envVarMissing
    | none =>
      match env p with
      | some v => Outcome.ok v
      | none => Outcome.err Err.envVarMissing
  else Outcome.ok path

/-- The second binding of `escape_var`: expand a leading `~` of the
already-expanded string, replacing its first `/`-segment with `HOME`; a
missing `HOME` is a panic (`expect`). -/
def tildeStep (env : Str → Option Str) (path_str : Str) : Outcome Str :=
  if path_str.head? = some '~' then
    match env ("HOME".data) with
    | none => Outcome.panicked
    | some home =>
      match splitOnce '/' path_str with
      | some q => Outcome.ok (home ++ '/' :: q.2)
      | none => Outcome.ok home
  else Outcome.ok path_str

/-- `escape_var` from config_file.rs: the `$VAR` expansion followed by the
`~` expansion applied to its result. -/
def escape_var (env : Str → Option Str) (path : Str) : Outcome Str :=
  match envStep env path with
  | Outcome.ok path_str => tildeStep env path_str
  | r => r

/-- Drop trailing `/` characters. -/
def dropTrailingSlashes (s : Str) : Str :=
  (s.reverse.dropWhile (fun c => c = '/')).reverse

/-- `Path::file_name` on the string form: the final segment, `none` when
there is none. -/
def fileName (s : Str) : Option Str :=
  let t := dropTrailingSlashes s
  let f := (t.reverse.takeWhile (fun c => c ≠ '/')).reverse
  if f.isEmpty then none else some f

/-- `PathBuf::pop` on the string form: remove the final segment, keeping a
root `/`. -/
def pathPop (s : Str) : Str :=
  let t := dropTrailingSlashes s
  let r := dropTrailingSlashes ((t.reverse.dropWhile (fun c => c ≠ '/')).reverse)
  if r.isEmpty && s.head? = some '/' then ['/'] else r

/-- `validated_path` from config_file.rs.  Note the only directory check in
the source: a path that does **not** end with `/` but names an existing
directory is rejected; a trailing-slash path is accepted without any
filesystem check.  For a non-slash path the final segment unconditionally
replaces the incoming include glob (`include_glob.replace(file_name)`). -/
def validated_path (isDir : Str → Bool) (env : Str → Option Str) (val : Str)
    (include_glob : Option Str) : Outcome (Str × Option Str) :=
  let ends_with_slash := val.getLast? = some '/'
  match escape_var env val with
  | Outcome.err e => Outcome.err e
  | Outcome.panicked => Outcome.panicked
  | Outcome.ok path =>
    if !ends_with_slash && isDir path then Outcome.err Err.invalidDirSpec
    else if !ends_with_slash then
      match fileName path with
      | none => Outcome.err Err.invalidFileName
      | some fname => Outcome.ok (pathPop path, some fname)
    else Outcome.ok (path, include_glob)

/-- The resolved path specification (`ConfigPath` in config_file.rs). -/
structure ConfigPath where
  base_path : Str
  include_glob : Str
  exclude_glob : Option Str
deriving DecidableEq

instance : Inhabited ConfigPath := ⟨⟨[], [], none⟩⟩

/-- Loop state of `ConfigVisitor::visit_map`. -/
structure VisitState where
  base_path : Option Str
  include_glob : Option Str
  exclude_glob : Option Str
deriving DecidableEq

/-- The entry loop of `ConfigVisitor::visit_map`: `path` runs
`validated_path` (which may overwrite the include glob), `include` is kept
only when nothing set the glob yet, `exclude` always overwrites, every
other key falls to the wildcard arm and is ignored. -/
def visitLoop (isDir : Str → Bool) (env : Str → Option Str) (st : VisitState) :
    List (String × Str) → Outcome VisitState
  | [] => Outcome.ok st
  | (k, v) :: rest =>
    if k = "path" then
      match validated_path isDir env v st.include_glob with
      | Outcome.ok (p, ig) =>
        visitLoop isDir env ⟨some p, ig, st.exclude_glob⟩ rest
      | Outcome.err e => Outcome.err e
      | Outcome.panicked => Outcome.panicked
    else if k = "include" then
      visitLoop isDir env
        ⟨st.base_path,
         (if st.include_glob.isNone then some v else st.include_glob),
         st.exclude_glob⟩ rest
    else if k = "exclude" then
      visitLoop isDir env ⟨st.base_path, st.include_glob, some v⟩ rest
    else
      visitLoop isDir env st rest

/-- `ConfigVisitor::visit_map`: run the entry loop, require a `path`
field, default the include glob to the recursive match-everything
pattern. -/
def visit_map (isDir : Str → Bool) (env : Str → Option Str)
    (entries : List (String × Str)) : Outcome ConfigPath :=
  match visitLoop isDir env ⟨none, none, none⟩ entries with
  | Outcome.ok st =>
    match st.base_path with
    | some bp => Outcome.ok ⟨bp, st.include_glob.getD ("**/*".data), st.exclude_glob⟩
    | none => Outcome.err Err.missingPathField
  | Outcome.err e => Outcome.err e
  | Outcome.panicked => Outcome.panicked

/-- First value stored under a key (`HashMap` lookup on the list model). -/
def lookupName (n : String) : List (String × ConfigPath) → Option ConfigPath
  | [] => none
  | (k, v) :: rest => if k = n then some v else lookupName n rest

/-- `HashMap::remove` on the list model: take out the entry for the key,
returning it and the remaining map. -/
def removeEntry (n : String) :
    List (String × ConfigPath) → Option (ConfigPath × List (String × ConfigPath))
  | [] => none
  | (k, v) :: rest =>
    if k = n then some (v, rest)
    else (removeEntry n rest).map (fun q => (q.1, (k, v) :: q.2))

/-- The selection loop of `ConfigFile::reduce_to_configs`. -/
def reduceGo (cfgs : List (String × ConfigPath)) :
    List String → Except Err (List (String × ConfigPath))
  | [] => Except.ok []
  | n :: rest =>
    match removeEntry n cfgs with
    | some (v, cfgs1) =>
      match reduceGo cfgs1 rest with
      | Except.ok l => Except.ok ((n, v) :: l)
      | Except.error e => Except.error e
    | none => Except.error (Err.unknownConfigName n)

/-- `ConfigFile::reduce_to_configs`: with no selection return everything;
with a selection, remove and return each requested entry in the requested
order, failing on the first name not present. -/
def reduce_to_configs (cfgs : List (String × ConfigPath))
    (specific : Option (List String)) : Except Err (List (String × ConfigPath)) :=
  match specific with
  | none => Except.ok cfgs
  | some names => reduceGo cfgs names

/-! Concrete instances used to evaluate the model on closed inputs. -/

/-- A pattern compiler for which every pattern is well-formed and matches
every path. -/
def egCompile : Str → Option (Path → Bool) := fun _ => some (fun _ => true)

/-- A pattern compiler for which every pattern is malformed. -/
def compileNone : Str → Option (Path → Bool) := fun _ => none

/-- An origin directory `o` holding file `a` (mtime 10) and a linked
directory `l` holding file `a` (mtime 5); the clock is past both. -/
def fs0 : FS :=
  ⟨[(["o"], ⟨FKind.dir, 0, 0⟩), (["o", "a"], ⟨FKind.file, 10, 7⟩),
    (["l"], ⟨FKind.dir, 0, 0⟩), (["l", "a"], ⟨FKind.file, 5, 3⟩)], 100⟩

/-- Source and destination files with equal modification times. -/
def fsW : FS :=
  ⟨[(["o", "a"], ⟨FKind.file, 10, 1⟩), (["l", "a"], ⟨FKind.file, 10, 2⟩)], 50⟩

/-- A filesystem view on which no path is a directory. -/
def isDir0 : Str → Bool := fun _ => false

/-- A filesystem view on which every path is a directory. -/
def isDir1 : Str → Bool := fun _ => true

/-- The empty environment. -/
def env0 : Str → Option Str := fun _ => none

/-- An environment where `V` holds a tilde path and `HOME` is set. -/
def env1 : Str → Option Str := fun s =>
  if s = "V".data then some ("~/cfg".data)
  else if s = "HOME".data then some ("/home/u".data)
  else none

/-- Two sample resolved specs for the reducer examples. -/
def cpA : ConfigPath := ⟨"a".data, [], none⟩

def cpB : ConfigPath := ⟨"b".data, [], none⟩

/-- One bidirectional `Sync` invocation on the `o`/`l` pair with the
match-everything pattern. -/
def syncRunOnce (fs : FS) : Outcome (FS × Nat × Nat) :=
  runCmd Command.sync egCompile fs ["o"] ["l"] ("**/*".data) none false

/-- The (pulled, pushed) counts of the second of two back-to-back
bidirectional syncs starting from `fs0`. -/
def secondRunCounts : Option (Nat × Nat) :=
  match syncRunOnce fs0 with
  | Outcome.ok (fs1, _, _) =>
    match syncRunOnce fs1 with
    | Outcome.ok (_, p, q) => some (p, q)
    | _ => none
  | _ => none

/-! Helper lemmas about the filesystem model. -/

theorem FS.isDir_eq_false_of_isFile (fs : FS) (p : Path) (h : fs.isFile p = true) :
    fs.isDir p = false := by
  unfold FS.isFile at h
  unfold FS.isDir
  cases hq : fs.lookup p with
  | none => rfl
  | some e =>
    rw [hq] at h
    simp only [beq_iff_eq] at h ⊢
    simp [h]

theorem FS.isSymlink_eq_false_of_isFile (fs : FS) (p : Path) (h : fs.isFile p = true) :
    fs.isSymlink p = false := by
  unfold FS.isFile at h
  unfold FS.isSymlink
  cases hq : fs.lookup p with
  | none => rfl
  | some e =>
    rw [hq] at h
    simp only [beq_iff_eq] at h ⊢
    simp [h]

theorem FS.mtime?_isSome_of_isFile (fs : FS) (p : Path) (h : fs.isFile p = true) :
    ∃ m, fs.mtime? p = some m := by
  unfold FS.isFile at h
  unfold FS.mtime?
  cases hq : fs.lookup p with
  | none => rw [hq] at h; exact absurd h (by simp)
  | some e => exact ⟨e.mtime, rfl⟩

theorem FS.mtime?_isSome_of_existsP (fs : FS) (p : Path) (h : fs.existsP p = true) :
    ∃ m, fs.mtime? p = some m := by
  unfold FS.existsP at h
  unfold FS.mtime?
  cases hq : fs.lookup p with
  | none => rw [hq] at h; exact absurd h (by simp)
  | some e => exact ⟨e.mtime, rfl⟩

theorem FS.existsP_eq_true_of_isFile (fs : FS) (p : Path) (h : fs.isFile p = true) :
    fs.existsP p = true := by
  unfold FS.isFile at h
  unfold FS.existsP
  cases hq : fs.lookup p with
  | none => rw [hq] at h; exact absurd h (by simp)
  | some e => simp [hq]

theorem FS.clock_mkdirAll (fs : FS) (p : Path) : (fs.mkdirAll p).clock = fs.clock := rfl

theorem FS.lookup_mkdirAll_of_isSome (fs : FS) (p q : Path)
    (h : (fs.lookup q).isSome = true) : (fs.mkdirAll p).lookup q = fs.lookup q := by
  unfold FS.lookup at h ⊢
  unfold FS.mkdirAll
  simp only [List.find?_append]
  cases hf : fs.entries.find? (fun e => e.1 == q) with
  | none => rw [hf] at h; exact absurd h (by simp)
  | some e => simp

theorem FS.lookup_mkdirAll_of_longer (fs : FS) (p q : Path)
    (h : fs.lookup q = none) (hlen : p.length < q.length) :
    (fs.mkdirAll p).lookup q = none := by
  unfold FS.lookup at h ⊢
  unfold FS.mkdirAll
  simp only [List.find?_append]
  cases hf : fs.entries.find? (fun e => e.1 == q) with
  | some e => rw [hf] at h; simp at h
  | none =>
    simp only [Option.none_or]
    have hnone : List.find? (fun e => e.1 == q)
        (((pathPrefixes p).filter (fun r => !(fs.existsP r))).map
          (fun r => (r, (⟨FKind.dir, fs.clock, 0⟩ : Entry)))) = none := by
      rw [List.find?_eq_none]
      intro x hx
      simp only [List.mem_map, List.mem_filter] at hx
      obtain ⟨r, ⟨hr, _⟩, hxr⟩ := hx
      simp only [pathPrefixes, List.mem_map, List.mem_range] at hr
      obtain ⟨n, hn, hrn⟩ := hr
      subst hxr
      simp only [beq_iff_eq]
      intro hq
      have h1 : r.length ≤ p.length := by
        subst hrn; simp [List.length_take]
      rw [hq] at h1
      omega
    rw [hnone]
    rfl

theorem FS.isFile_mkdirAll_of_isFile (fs : FS) (p q : Path)
    (h : fs.isFile q = true) : (fs.mkdirAll p).isFile q = true := by
  unfold FS.isFile at h ⊢
  cases hq : fs.lookup q with
  | none => rw [hq] at h; simp at h
  | some e =>
    rw [FS.lookup_mkdirAll_of_isSome fs p q (by simp [hq]), hq]
    rw [hq] at h
    exact h

theorem FS.mtime?_copyFile_dst (fs : FS) (s d : Path) :
    (fs.copyFile s d).mtime? d = some fs.clock := by
  unfold FS.mtime? FS.lookup FS.copyFile
  simp

/-! Claim theorems. -/

/-- C6: in Sync command mode exactly two directional syncs run per
configuration, origin→linked first and then linked→origin, and both are
invoked with force=false no matter what force flag the caller passed. -/
theorem runCmd_sync_two_passes_nonforced (compile : Str → Option (Path → Bool))
    (fs : FS) (origin_base linked_base : Path) (include_glob : Str)
    (exclude_glob : Option Str) (force force2 : Bool) :
    runCmd Command.sync compile fs origin_base linked_base include_glob exclude_glob force =
      (match Jconf.sync compile fs origin_base linked_base include_glob exclude_glob false with
       | Outcome.ok (fs1, pulled) =>
         match Jconf.sync compile fs1 linked_base origin_base include_glob exclude_glob false with
         | Outcome.ok (fs2, pushed) => Outcome.ok (fs2, pulled, pushed)
         | Outcome.err e => Outcome.err e
         | Outcome.panicked => Outcome.panicked
       | Outcome.err e => Outcome.err e
       | Outcome.panicked => Outcome.panicked) ∧
    runCmd Command.sync compile fs origin_base linked_base include_glob exclude_glob force =
      runCmd Command.sync compile fs origin_base linked_base include_glob exclude_glob force2 :=
  ⟨rfl, rfl⟩

/-- C7 counterexample: with a malformed include pattern (and no exclude
pattern), `sync` aborts via the `expect` panic, not via an ordinary
GlobPatternError result. -/
theorem malformed_include_panics_cex :
    sync compileNone fs0 ["o"] ["l"] ("**/*".data) none false = Outcome.panicked ∧
    (Outcome.panicked : Outcome (FS × Nat)) ≠ Outcome.err Err.globPattern := by
  constructor
  · rfl
  · intro h
    exact Outcome.noConfusion h

/-- C7 amended: a malformed exclude pattern makes `sync` fail with
GlobPatternError propagated as an ordinary error result. -/
theorem malformed_exclude_propagates (compile : Str → Option (Path → Bool))
    (fs : FS) (from_base to_base : Path) (include_glob g : Str) (force : Bool)
    (h : compile (globJoin from_base g) = none) :
    sync compile fs from_base to_base include_glob (some g) force =
      Outcome.err Err.globPattern := by
  simp [sync, h]

/-- C7 amended, witness: a concrete malformed exclude pattern. -/
theorem malformed_exclude_propagates_w :
    sync compileNone fs0 ["o"] ["l"] ("**/*".data) (some ("[".data)) false =
      Outcome.err Err.globPattern :=
  malformed_exclude_propagates compileNone fs0 ["o"] ["l"] ("**/*".data) ("[".data) false rfl

/-- C2 (code bug): starting from `fs0` (origin file newer than the linked
copy), the first bidirectional sync pulls the file and then pushes it back
(the copy's fresh modification time is strictly newer than the origin's),
and the second run again reports one pull and one push instead of zero. -/
theorem sync_second_run_not_zero :
    secondRunCounts = some (1, 1) ∧ secondRunCounts ≠ some (0, 0) :=
  ⟨rfl, by decide⟩

/-- C3 counterexample: the spec string `nosuch/` ends with a slash and
names no existing directory, yet `validated_path` succeeds instead of
failing with InvalidDirectorySpec. -/
theorem trailing_slash_not_checked_cex :
    validated_path isDir0 env0 ("nosuch/".data) none =
      Outcome.ok ("nosuch/".data, none) := by
  rfl

/-- C3 amended: a trailing-slash specification is accepted with the
expanded string as base_path and no directory-existence check at all,
while InvalidDirectorySpec is raised exactly for specifications that do
not end with `/` but expand to an existing directory. -/
theorem validated_path_dir_check (isDir : Str → Bool) (env : Str → Option Str)
    (val p : Str) (ig : Option Str) :
    (val.getLast? = some '/' → escape_var env val = Outcome.ok p →
      validated_path isDir env val ig = Outcome.ok (p, ig)) ∧
    (val.getLast? ≠ some '/' → escape_var env val = Outcome.ok p → isDir p = true →
      validated_path isDir env val ig = Outcome.err Err.invalidDirSpec) := by
  constructor
  · intro h1 h2
    unfold validated_path
    rw [h2]
    simp [h1]
  · intro h1 h2 h3
    unfold validated_path
    rw [h2]
    simp [h1, h3]

/-- C3 amended, witness: `x/` resolves fine on a filesystem with no
directories at all; `x` is rejected when it is an existing directory. -/
theorem validated_path_dir_check_w :
    validated_path isDir0 env0 ("x/".data) none = Outcome.ok ("x/".data, none) ∧
    validated_path isDir1 env0 ("x".data) none = Outcome.err Err.invalidDirSpec :=
  ⟨(validated_path_dir_check isDir0 env0 ("x/".data) ("x/".data) none).1
      (by decide) (by decide),
   (validated_path_dir_check isDir1 env0 ("x".data) ("x".data) none).2
      (by decide) (by decide) (by decide)⟩

/-- C4 counterexample: with a structured `include` of `foo` and a `path`
of `dir/file.txt` resolving to a single file, the resolved include glob is
the filename `file.txt` split off the path, not the structured `foo`. -/
theorem structured_include_overwritten_cex :
    visit_map isDir0 env0 [("include", "foo".data), ("path", "dir/file.txt".data)] =
      Outcome.ok ⟨"dir".data, "file.txt".data, none⟩ ∧
    "file.txt".data ≠ "foo".data := by
  constructor
  · rfl
  · decide

/-- C4 amended: when the `path` field resolves to a single file, the
filename split off the path always wins: in both field orders the resolved
include glob is that filename, and a structured `include` value is
discarded. -/
theorem path_filename_overrides_include (isDir : Str → Bool)
    (env : Str → Option Str) (igv p q f : Str)
    (hslash : p.getLast? ≠ some '/') (hesc : escape_var env p = Outcome.ok q)
    (hdir : isDir q = false) (hfile : fileName q = some f) :
    visit_map isDir env [("include", igv), ("path", p)] =
      Outcome.ok ⟨pathPop q, f, none⟩ ∧
    visit_map isDir env [("path", p), ("include", igv)] =
      Outcome.ok ⟨pathPop q, f, none⟩ := by
  have hv : ∀ ig, validated_path isDir env p ig = Outcome.ok (pathPop q, some f) := by
    intro ig
    unfold validated_path
    rw [hesc]
    simp [hslash, hdir, hfile]
  constructor
  · simp [visit_map, visitLoop, hv]
  · simp [visit_map, visitLoop, hv]

/-- C4 amended, witness: both field orders on a concrete file path give
the filename `f.c`, not the structured include `bar`. -/
theorem path_filename_overrides_include_w :
    visit_map isDir0 env0 [("include", "bar".data), ("path", "d/f.c".data)] =
      Outcome.ok ⟨"d".data, "f.c".data, none⟩ ∧
    visit_map isDir0 env0 [("path", "d/f.c".data), ("include", "bar".data)] =
      Outcome.ok ⟨"d".data, "f.c".data, none⟩ :=
  path_filename_overrides_include isDir0 env0 ("bar".data) ("d/f.c".data)
    ("d/f.c".data) ("f.c".data) (by decide) (by decide) (by decide) (by decide)

/-- Skipping an entry with an unrecognized key leaves the visitor loop
unchanged, wherever the entry sits. -/
theorem visitLoop_skip_unknown (isDir : Str → Bool) (env : Str → Option Str)
    (k : String) (v : Str)
    (hk1 : k ≠ "path") (hk2 : k ≠ "include") (hk3 : k ≠ "exclude") :
    ∀ (l1 : List (String × Str)) (st : VisitState) (l2 : List (String × Str)),
      visitLoop isDir env st (l1 ++ (k, v) :: l2) = visitLoop isDir env st (l1 ++ l2) := by
  intro l1
  induction l1 with
  | nil =>
    intro st l2
    simp [visitLoop, hk1, hk2, hk3]
  | cons a t ih =>
    intro st l2
    obtain ⟨k1, v1⟩ := a
    by_cases h1 : k1 = "path"
    · simp only [List.cons_append, visitLoop, if_pos h1]
      cases hvp : validated_path isDir env v1 st.include_glob with
      | ok pr => obtain ⟨pp, ii⟩ := pr; simp [ih]
      | err e => rfl
      | panicked => rfl
    · by_cases h2 : k1 = "include"
      · simp only [List.cons_append, visitLoop, if_neg h1, if_pos h2]
        exact ih _ _
      · by_cases h3 : k1 = "exclude"
        · simp only [List.cons_append, visitLoop, if_neg h1, if_neg h2, if_pos h3]
          exact ih _ _
        · simp only [List.cons_append, visitLoop, if_neg h1, if_neg h2, if_neg h3]
          exact ih _ _

/-- C10: a table entry whose key is none of `path`, `include`, `exclude`
is silently ignored: resolution of the rest of the table is exactly the
same with or without it. -/
theorem visit_map_ignores_unknown_keys (isDir : Str → Bool) (env : Str → Option Str)
    (l1 l2 : List (String × Str)) (k : String) (v : Str)
    (hk1 : k ≠ "path") (hk2 : k ≠ "include") (hk3 : k ≠ "exclude") :
    visit_map isDir env (l1 ++ (k, v) :: l2) = visit_map isDir env (l1 ++ l2) := by
  unfold visit_map
  rw [visitLoop_skip_unknown isDir env k v hk1 hk2 hk3]

/-- C10 witness: a `color` key after `path` changes nothing. -/
theorem visit_map_ignores_unknown_keys_w :
    visit_map isDir0 env0 [("path", "x".data), ("color", "red".data)] =
      visit_map isDir0 env0 [("path", "x".data)] :=
  visit_map_ignores_unknown_keys isDir0 env0 [("path", "x".data)] []
    "color" ("red".data) (by decide) (by decide) (by decide)

/-- C1: for a regular source file (and a destination that is not an
existing directory), `sync_file` copies exactly when force is set, or the
destination is missing, or the source modification time is strictly later;
a copied destination gets the clock as its modification time, and in the
remaining case — no force, destination present, destination at least as
new — the state is returned untouched with the updated flag false, so the
count is not incremented. -/
theorem sync_file_copy_iff (fs : FS) (fb tb fp : Path) (force : Bool)
    (hfp : fp ≠ []) (hf : fs.isFile (fb ++ fp) = true)
    (ht : fs.isDir (tb ++ fp) = false) :
    (∃ fs2, sync_file fs fb tb fp force =
        Outcome.ok (fs2,
          (force || !fs.existsP (tb ++ fp) ||
            decide (fs.mtimeD (fb ++ fp) > fs.mtimeD (tb ++ fp)))) ∧
      ((force || !fs.existsP (tb ++ fp) ||
        decide (fs.mtimeD (fb ++ fp) > fs.mtimeD (tb ++ fp))) = true →
        fs2.mtime? (tb ++ fp) = some fs.clock)) ∧
    (force = false → fs.existsP (tb ++ fp) = true →
      fs.mtimeD (fb ++ fp) ≤ fs.mtimeD (tb ++ fp) →
      sync_file fs fb tb fp force = Outcome.ok (fs, false)) := by
  have hd := FS.isDir_eq_false_of_isFile fs (fb ++ fp) hf
  have hs := FS.isSymlink_eq_false_of_isFile fs (fb ++ fp) hf
  obtain ⟨fm, hfm⟩ := FS.mtime?_isSome_of_isFile fs (fb ++ fp) hf
  have hfmD : fs.mtimeD (fb ++ fp) = fm := by simp [FS.mtimeD, hfm]
  cases hex : fs.existsP (tb ++ fp) with
  | true =>
    obtain ⟨tm, htm⟩ := FS.mtime?_isSome_of_existsP fs (tb ++ fp) hex
    have htmD : fs.mtimeD (tb ++ fp) = tm := by simp [FS.mtimeD, htm]
    cases force with
    | true =>
      refine ⟨⟨fs.copyFile (fb ++ fp) (tb ++ fp), ?_, ?_⟩, ?_⟩
      · unfold sync_file
        simp [hd, hs, hex, hf, ht]
      · intro _
        exact FS.mtime?_copyFile_dst fs (fb ++ fp) (tb ++ fp)
      · intro h
        exact absurd h (by simp)
    | false =>
      rw [hfmD, htmD]
      by_cases hgt : fm > tm
      · refine ⟨⟨fs.copyFile (fb ++ fp) (tb ++ fp), ?_, ?_⟩, ?_⟩
        · unfold sync_file
          simp [hd, hs, hex, hf, ht, hfm, htm, hgt]
        · intro _
          exact FS.mtime?_copyFile_dst fs (fb ++ fp) (tb ++ fp)
        · intro _ _ hle
          omega
      · refine ⟨⟨fs, ?_, ?_⟩, ?_⟩
        · unfold sync_file
          simp [hd, hs, hex, hfm, htm, hgt]
        · intro hcond
          simp [hgt] at hcond
        · intro _ _ _
          unfold sync_file
          simp [hd, hs, hex, hfm, htm, hgt]
  | false =>
    have hlook : fs.lookup (tb ++ fp) = none := by
      unfold FS.existsP at hex
      cases hq : fs.lookup (tb ++ fp) with
      | none => rfl
      | some e => rw [hq] at hex; simp at hex
    have hlen : (tb ++ fp).dropLast.length < (tb ++ fp).length := by
      rw [List.length_dropLast, List.length_append]
      have h0 : fp.length ≠ 0 := fun h => hfp (List.length_eq_zero.mp h)
      omega
    have hmk : (fs.mkdirAll (tb ++ fp).dropLast).lookup (tb ++ fp) = none :=
      FS.lookup_mkdirAll_of_longer fs (tb ++ fp).dropLast (tb ++ fp) hlook hlen
    have hmkdir : (fs.mkdirAll (tb ++ fp).dropLast).isDir (tb ++ fp) = false := by
      unfold FS.isDir
      rw [hmk]
    have hmkfile : (fs.mkdirAll (tb ++ fp).dropLast).isFile (fb ++ fp) = true :=
      FS.isFile_mkdirAll_of_isFile fs (tb ++ fp).dropLast (fb ++ fp) hf
    refine ⟨⟨(fs.mkdirAll (tb ++ fp).dropLast).copyFile (fb ++ fp) (tb ++ fp), ?_, ?_⟩, ?_⟩
    · unfold sync_file
      simp [hd, hs, hex, hmkdir, hmkfile]
    · intro _
      have := FS.mtime?_copyFile_dst (fs.mkdirAll (tb ++ fp).dropLast) (fb ++ fp) (tb ++ fp)
      rw [FS.clock_mkdirAll] at this
      exact this
    · intro _ h2 _
      exact absurd h2 (by simp)

/-- C1 witness: equal modification times with force off — no copy, state
unchanged, flag false. -/
theorem sync_file_copy_iff_w :
    sync_file fsW ["o"] ["l"] ["a"] false = Outcome.ok (fsW, false) :=
  (sync_file_copy_iff fsW ["o"] ["l"] ["a"] false (by decide) (by decide) (by decide)).2
    rfl (by decide) (by decide)

/-- Dropping a block of matching characters from the front stops at the
first non-matching head. -/
theorem dropWhile_replicate_append (n : Nat) (t : Str) (ht : t.head? ≠ some '$') :
    (List.replicate n '$' ++ t).dropWhile (fun c => c = '$') = t := by
  induction n with
  | zero =>
    cases t with
    | nil => rfl
    | cons a s =>
      simp only [List.head?_cons, ne_eq, Option.some.injEq] at ht
      simp [List.dropWhile_cons, ht]
  | succ m ih =>
    simp only [List.replicate_succ, List.cons_append, List.dropWhile_cons]
    simp [ih]

/-- `split_once` finds the separator right after a separator-free
prefix. -/
theorem splitOnce_append (k rest : Str) (hk : '/' ∉ k) :
    splitOnce '/' (k ++ '/' :: rest) = some (k, rest) := by
  induction k with
  | nil => simp [splitOnce]
  | cons a t ih =>
    simp only [List.mem_cons, not_or] at hk
    simp only [List.cons_append, splitOnce]
    rw [if_neg (fun h => hk.1 h.symm)]
    have h2 := ih hk.2
    simp [h2]

/-- C9: environment expansion composes with home expansion — for a path
`$…$VAR/rest` every leading `$` is stripped before the variable lookup,
and when the variable's value starts with `~` (the tilde its own leading
segment) that tilde is then replaced by the value of HOME. -/
theorem escape_var_env_then_home (env : Str → Option Str) (n : Nat)
    (k rest w home : Str)
    (hk0 : k.head? ≠ some '$') (hk1 : '/' ∉ k)
    (hv : env k = some ('~' :: w)) (hw : w = [] ∨ w.head? = some '/')
    (hh : env ("HOME".data) = some home) :
    escape_var env (List.replicate (n + 1) '$' ++ k ++ '/' :: rest) =
      Outcome.ok (home ++ w ++ '/' :: rest) := by
  have hhead : (List.replicate (n + 1) '$' ++ k ++ '/' :: rest).head? = some '$' := by
    simp [List.replicate_succ]
  have htail : (k ++ '/' :: rest).head? ≠ some '$' := by
    cases k with
    | nil => simp
    | cons a t =>
      simp only [List.head?_cons, ne_eq, Option.some.injEq] at hk0
      simp only [List.cons_append, List.head?_cons, ne_eq, Option.some.injEq]
      exact hk0
  have hdrop : (List.replicate (n + 1) '$' ++ (k ++ '/' :: rest)).dropWhile
      (fun c => c = '$') = k ++ '/' :: rest :=
    dropWhile_replicate_append (n + 1) (k ++ '/' :: rest) htail
  have henv : envStep env (List.replicate (n + 1) '$' ++ k ++ '/' :: rest) =
      Outcome.ok ('~' :: w ++ '/' :: rest) := by
    unfold envStep
    rw [if_pos hhead]
    rw [List.append_assoc, hdrop]
    simp only [splitOnce_append k rest hk1, hv]
  have htilde : tildeStep env ('~' :: w ++ '/' :: rest) =
      Outcome.ok (home ++ w ++ '/' :: rest) := by
    unfold tildeStep
    rw [if_pos (by simp)]
    rw [hh]
    cases hw with
    | inl h0 =>
      subst h0
      simp [splitOnce]
    | inr h1 =>
      cases w with
      | nil => simp at h1
      | cons b u =>
        simp only [List.head?_cons, Option.some.injEq] at h1
        subst h1
        simp [splitOnce]
  unfold escape_var
  rw [henv]
  exact htilde

/-- C9 witness: `$$$V/x` with `V = ~/cfg` and `HOME = /home/u` expands to
`/home/u/cfg/x`. -/
theorem escape_var_env_then_home_w :
    escape_var env1 ("$$$V/x".data) = Outcome.ok ("/home/u/cfg/x".data) := by
  have h := escape_var_env_then_home env1 2 ("V".data) ("x".data) ("/cfg".data)
    ("/home/u".data) (by decide) (by decide) (by decide) (Or.inr (by decide)) (by decide)
  exact h

/-! Lemmas about the configuration reducer. -/

theorem lookupName_eq_none_of_not_mem (n : String)
    (cfgs : List (String × ConfigPath)) (h : n ∉ cfgs.map Prod.fst) :
    lookupName n cfgs = none := by
  induction cfgs with
  | nil => rfl
  | cons a t ih =>
    obtain ⟨k, v⟩ := a
    simp only [List.map_cons, List.mem_cons, not_or] at h
    simp only [lookupName]
    rw [if_neg (fun hk => h.1 hk.symm)]
    exact ih h.2

theorem removeEntry_of_lookup_some (n : String)
    (cfgs : List (String × ConfigPath)) (v : ConfigPath)
    (h : lookupName n cfgs = some v) :
    ∃ r, removeEntry n cfgs = some (v, r) ∧
      ∀ m, m ≠ n → lookupName m r = lookupName m cfgs := by
  induction cfgs with
  | nil => simp [lookupName] at h
  | cons a t ih =>
    obtain ⟨k, v1⟩ := a
    by_cases hk : k = n
    · simp only [lookupName, if_pos hk] at h
      obtain rfl : v1 = v := Option.some.inj h
      refine ⟨t, by simp [removeEntry, hk], ?_⟩
      intro m hm
      simp only [lookupName]
      rw [if_neg (fun hkm : k = m => hm (hkm.symm.trans hk))]
    · simp only [lookupName, if_neg hk] at h
      obtain ⟨r, hr1, hr2⟩ := ih h
      refine ⟨(k, v1) :: r, ?_, ?_⟩
      · simp [removeEntry, hk, hr1]
      · intro m hm
        by_cases hkm : k = m
        · simp [lookupName, hkm]
        · simp [lookupName, hkm, hr2 m hm]

theorem removeEntry_of_lookup_none (n : String)
    (cfgs : List (String × ConfigPath)) (h : lookupName n cfgs = none) :
    removeEntry n cfgs = none := by
  induction cfgs with
  | nil => rfl
  | cons a t ih =>
    obtain ⟨k, v⟩ := a
    by_cases hk : k = n
    · simp [lookupName, hk] at h
    · simp only [lookupName, if_neg hk] at h
      simp [removeEntry, hk, ih h]

theorem removeEntry_keys_sublist (n : String) :
    ∀ (cfgs r : List (String × ConfigPath)) (v : ConfigPath),
      removeEntry n cfgs = some (v, r) →
      (r.map Prod.fst).Sublist (cfgs.map Prod.fst) := by
  intro cfgs
  induction cfgs with
  | nil => intro r v h; simp [removeEntry] at h
  | cons a t ih =>
    intro r v h
    obtain ⟨k, v1⟩ := a
    by_cases hk : k = n
    · simp only [removeEntry, if_pos hk, Option.some.injEq, Prod.mk.injEq] at h
      rw [← h.2]
      exact List.sublist_cons_self k (t.map Prod.fst)
    · simp only [removeEntry, if_neg hk] at h
      cases ht : removeEntry n t with
      | none => rw [ht] at h; simp at h
      | some q =>
        rw [ht] at h
        obtain ⟨v2, r2⟩ := q
        simp only [Option.map_some', Option.some.injEq, Prod.mk.injEq] at h
        obtain ⟨h1, h2⟩ := h
        subst h1
        rw [← h2]
        simp only [List.map_cons]
        exact List.Sublist.cons₂ k (ih r2 _ ht)

theorem lookupName_removeEntry_self (n : String) :
    ∀ (cfgs r : List (String × ConfigPath)) (v : ConfigPath),
      (cfgs.map Prod.fst).Nodup → removeEntry n cfgs = some (v, r) →
      lookupName n r = none := by
  intro cfgs
  induction cfgs with
  | nil => intro r v _ h; simp [removeEntry] at h
  | cons a t ih =>
    intro r v hnd h
    obtain ⟨k, v1⟩ := a
    simp only [List.map_cons, List.nodup_cons] at hnd
    by_cases hk : k = n
    · simp only [removeEntry, if_pos hk, Option.some.injEq, Prod.mk.injEq] at h
      rw [← h.2]
      exact lookupName_eq_none_of_not_mem n t (hk ▸ hnd.1)
    · simp only [removeEntry, if_neg hk] at h
      cases ht : removeEntry n t with
      | none => rw [ht] at h; simp at h
      | some q =>
        rw [ht] at h
        obtain ⟨v2, r2⟩ := q
        simp only [Option.map_some', Option.some.injEq, Prod.mk.injEq] at h
        obtain ⟨h1, h2⟩ := h
        subst h1
        rw [← h2]
        simp only [lookupName]
        rw [if_neg hk]
        exact ih r2 _ hnd.2 ht

theorem reduceGo_all_present :
    ∀ (names : List String) (cfgs : List (String × ConfigPath)),
      names.Nodup → (∀ m ∈ names, (lookupName m cfgs).isSome = true) →
      reduceGo cfgs names =
        Except.ok (names.map (fun m => (m, (lookupName m cfgs).getD default))) := by
  intro names
  induction names with
  | nil => intro cfgs _ _; rfl
  | cons nme t ih =>
    intro cfgs hnd hall
    obtain ⟨v, hv⟩ :=
      Option.isSome_iff_exists.mp (hall nme (List.mem_cons_self _ _))
    obtain ⟨r, hr1, hr2⟩ := removeEntry_of_lookup_some nme cfgs v hv
    simp only [List.nodup_cons] at hnd
    have hallr : ∀ m ∈ t, (lookupName m r).isSome = true := by
      intro m hm
      rw [hr2 m (fun hmn => hnd.1 (hmn ▸ hm))]
      exact hall m (List.mem_cons_of_mem _ hm)
    simp only [reduceGo, hr1]
    rw [ih r hnd.2 hallr]
    simp only [List.map_cons, hv]
    congr 2
    apply List.map_congr_left
    intro m hm
    rw [hr2 m (fun hmn => hnd.1 (hmn ▸ hm))]

theorem reduceGo_some_absent :
    ∀ (names : List String) (cfgs : List (String × ConfigPath)),
      names.Nodup → (∃ m ∈ names, lookupName m cfgs = none) →
      ∃ m, m ∈ names ∧ lookupName m cfgs = none ∧
        reduceGo cfgs names = Except.error (Err.unknownConfigName m) := by
  intro names
  induction names with
  | nil =>
    intro cfgs _ h
    obtain ⟨m, hm, _⟩ := h
    exact absurd hm (List.not_mem_nil m)
  | cons nme t ih =>
    intro cfgs hnd h
    simp only [List.nodup_cons] at hnd
    cases hl : lookupName nme cfgs with
    | none =>
      refine ⟨nme, List.mem_cons_self _ _, hl, ?_⟩
      simp only [reduceGo]
      rw [removeEntry_of_lookup_none nme cfgs hl]
    | some v =>
      obtain ⟨m0, hm0mem, hm0⟩ := h
      have hm0t : m0 ∈ t := by
        cases List.mem_cons.mp hm0mem with
        | inl he => rw [he, hl] at hm0; exact absurd hm0 (by simp)
        | inr ht => exact ht
      have hm0ne : m0 ≠ nme := by
        intro he
        rw [he, hl] at hm0
        exact absurd hm0 (by simp)
      obtain ⟨r, hr1, hr2⟩ := removeEntry_of_lookup_some nme cfgs v hl
      obtain ⟨m1, hm1t, hm1none, herr⟩ :=
        ih r hnd.2 ⟨m0, hm0t, by rw [hr2 m0 hm0ne]; exact hm0⟩
      have hm1ne : m1 ≠ nme := fun he => hnd.1 (he ▸ hm1t)
      refine ⟨m1, List.mem_cons_of_mem _ hm1t, ?_, ?_⟩
      · rw [← hr2 m1 hm1ne]
        exact hm1none
      · simp only [reduceGo, hr1, herr]

theorem reduceGo_absent (n : String) (post : List String) :
    ∀ (ms : List String) (cfgs : List (String × ConfigPath)),
      ms.Nodup → (∀ m ∈ ms, (lookupName m cfgs).isSome = true) → n ∉ ms →
      lookupName n cfgs = none →
      reduceGo cfgs (ms ++ n :: post) = Except.error (Err.unknownConfigName n) := by
  intro ms
  induction ms with
  | nil =>
    intro cfgs _ _ _ hn
    simp only [List.nil_append, reduceGo]
    rw [removeEntry_of_lookup_none n cfgs hn]
  | cons m t ih =>
    intro cfgs hnd hall hnot hn
    simp only [List.nodup_cons] at hnd
    simp only [List.mem_cons, not_or] at hnot
    obtain ⟨v, hv⟩ :=
      Option.isSome_iff_exists.mp (hall m (List.mem_cons_self _ _))
    obtain ⟨r, hr1, hr2⟩ := removeEntry_of_lookup_some m cfgs v hv
    have hallr : ∀ q ∈ t, (lookupName q r).isSome = true := by
      intro q hq
      rw [hr2 q (fun hqm => hnd.1 (hqm ▸ hq))]
      exact hall q (List.mem_cons_of_mem _ hq)
    have hnr : lookupName n r = none := by
      rw [hr2 n hnot.1]
      exact hn
    have hrec := ih r hnd.2 hallr hnot.2 hnr
    simp only [List.cons_append, reduceGo, hr1, List.append_eq, hrec]

/-- C5: with a selection of distinct names, the reducer returns the
matching (name, spec) pairs in exactly the caller-requested order when
every selected name is in the mapping, and fails with UnknownConfigName —
carrying no partial result — as soon as some selected name is absent. -/
theorem reduce_selected_order (cfgs : List (String × ConfigPath))
    (names : List String) (hnd : names.Nodup) :
    ((∀ m ∈ names, (lookupName m cfgs).isSome = true) →
      reduce_to_configs cfgs (some names) =
        Except.ok (names.map (fun m => (m, (lookupName m cfgs).getD default)))) ∧
    ((∃ m ∈ names, lookupName m cfgs = none) →
      ∃ m, m ∈ names ∧ lookupName m cfgs = none ∧
        reduce_to_configs cfgs (some names) =
          Except.error (Err.unknownConfigName m)) :=
  ⟨fun hall => reduceGo_all_present names cfgs hnd hall,
   fun habs => reduceGo_some_absent names cfgs hnd habs⟩

/-- C5 witness: selecting `b` then `a` returns the entries in that order;
the listing order in the mapping does not matter. -/
theorem reduce_selected_order_w :
    reduce_to_configs [("a", cpA), ("b", cpB)] (some ["b", "a"]) =
      Except.ok [("b", cpB), ("a", cpA)] := by
  have h := (reduce_selected_order [("a", cpA), ("b", cpB)] ["b", "a"]
    (by decide)).1 (by decide)
  exact h

theorem reduceGo_duplicate (mid post : List String) (n : String) :
    ∀ (pre : List String) (cfgs : List (String × ConfigPath)),
      (cfgs.map Prod.fst).Nodup → (pre ++ n :: mid).Nodup →
      (∀ m ∈ pre ++ n :: mid, (lookupName m cfgs).isSome = true) →
      reduceGo cfgs (pre ++ n :: mid ++ n :: post) =
        Except.error (Err.unknownConfigName n) := by
  intro pre
  induction pre with
  | nil =>
    intro cfgs hkeys hnd hall
    simp only [List.nil_append] at hnd hall ⊢
    simp only [List.nodup_cons] at hnd
    obtain ⟨v, hv⟩ :=
      Option.isSome_iff_exists.mp (hall n (List.mem_cons_self _ _))
    obtain ⟨r, hr1, hr2⟩ := removeEntry_of_lookup_some n cfgs v hv
    have hnr : lookupName n r = none :=
      lookupName_removeEntry_self n cfgs r v hkeys hr1
    have hallr : ∀ m ∈ mid, (lookupName m r).isSome = true := by
      intro m hm
      rw [hr2 m (fun hmn => hnd.1 (hmn ▸ hm))]
      exact hall m (List.mem_cons_of_mem _ hm)
    have herr := reduceGo_absent n post mid r hnd.2 hallr hnd.1 hnr
    simp only [reduceGo, hr1, List.append_eq, herr]
  | cons p pre2 ih =>
    intro cfgs hkeys hnd hall
    simp only [List.cons_append, List.nodup_cons] at hnd
    obtain ⟨v, hv⟩ := Option.isSome_iff_exists.mp
      (hall p (by simp))
    obtain ⟨r, hr1, hr2⟩ := removeEntry_of_lookup_some p cfgs v hv
    have hkeysr : (r.map Prod.fst).Nodup :=
      (removeEntry_keys_sublist p cfgs r v hr1).nodup hkeys
    have hallr : ∀ m ∈ pre2 ++ n :: mid, (lookupName m r).isSome = true := by
      intro m hm
      rw [hr2 m (fun hmp => hnd.1 (hmp ▸ hm))]
      exact hall m (List.mem_cons_of_mem _ hm)
    have herr := ih r hkeysr hnd.2 hallr
    simp only [List.cons_append, reduceGo, hr1, List.append_eq, herr]

/-- C8: a selection that names the same configuration twice (with distinct
names before and between the two occurrences, all present) fails with the
unknown-name error for that name: the first occurrence removed the entry
from the mapping, so the second lookup misses. -/
theorem reduce_duplicate_name_fails (cfgs : List (String × ConfigPath))
    (pre mid post : List String) (n : String)
    (hkeys : (cfgs.map Prod.fst).Nodup) (hnd : (pre ++ n :: mid).Nodup)
    (hall : ∀ m ∈ pre ++ n :: mid, (lookupName m cfgs).isSome = true) :
    reduce_to_configs cfgs (some (pre ++ n :: mid ++ n :: post)) =
      Except.error (Err.unknownConfigName n) :=
  reduceGo_duplicate mid post n pre cfgs hkeys hnd hall

/-- C8 witness: with the single entry `a`, selecting `a` twice fails with
the unknown-name error for `a`. -/
theorem reduce_duplicate_name_fails_w :
    reduce_to_configs [("a", cpA)] (some ["a", "a"]) =
      Except.error (Err.unknownConfigName "a") :=
  reduce_duplicate_name_fails [("a", cpA)] [] [] [] "a"
    (by decide) (by decide) (by decide)

end Jconf
